import Mathlib

/-!
# Verification of the IPDGS labelling pipeline

A shallow embedding of the annotation/labelling core of `IPDGS.py`
(`get_sat`, sections 5.3 and 6) together with the water-index computations
of `IPDGS.py` step 3 and `calculation_functions.get_indices`.

Modelling conventions:

* Python `int(...)` on a string is `pyInt` below: optional surrounding
  whitespace, an optional sign, then decimal digits; anything else raises
  `ValueError`, modelled as `none`.
* The persisted CSV store is modelled at the granularity of cells: a row is
  a `List String` of cells, the whole file a `List Row` with the header at
  position 0.  This matches both `list(csv.reader(...))` and
  `line.split(",")` in the source under the assumption that every
  coordinate box occupies a single cell.  (Modelled from the spec: "A box
  serializes as a bracketed 4-tuple of integers" occupying one column; the
  box-producing collaborator `user_interfacing.prompt_roi` is not among
  the sources.)
* Python's substring test `"x" in s` is `pyIn`, its `s.split(" ")` is
  `splitSpaceChars`, and its list indexing (negative indices wrap from the
  end, out-of-range raises) is `pyIdx`, returning `none` for the raised
  `IndexError`.
-/

/-- Drop leading space characters (the whitespace stripping of Python
`int`; the data at hand only ever carries plain spaces and a trailing
newline handled by the cell model). -/
def dropSpaces : List Char → List Char
  | [] => []
  | c :: cs => if c = ' ' then dropSpaces cs else c :: cs

/-- Parse a nonempty all-digit character list as a natural number. -/
def parseDigits : List Char → Nat → Option Nat
  | [], acc => some acc
  | c :: cs, acc =>
    if c.isDigit then parseDigits cs (10 * acc + (c.toNat - 48)) else none

/-- Digits with the nonemptiness requirement of Python `int`. -/
def parseDigits? : List Char → Option Nat
  | [] => none
  | c :: cs => parseDigits (c :: cs) 0

/-- Python `int(...)` on a character list: strip spaces, optional sign,
decimal digits; `none` models the raised `ValueError`. -/
def pyIntChars (cs : List Char) : Option Int :=
  let t := (dropSpaces (dropSpaces cs).reverse).reverse
  match t with
  | '-' :: ds => (parseDigits? ds).map fun n => -(n : Int)
  | '+' :: ds => (parseDigits? ds).map fun n => (n : Int)
  | ds => (parseDigits? ds).map fun n => (n : Int)

/-- Python `int(...)` on a string. -/
def pyInt (s : String) : Option Int := pyIntChars s.data

/-- `needle` occurs as a contiguous run inside `hay` (Python `in`). -/
def startsWithChars : List Char → List Char → Bool
  | [], _ => true
  | _ :: _, [] => false
  | a :: as, b :: bs => a == b && startsWithChars as bs

/-- Substring occurrence on character lists. -/
def subChars : List Char → List Char → Bool
  | n, [] => startsWithChars n []
  | n, b :: bs => startsWithChars n (b :: bs) || subChars n bs

/-- Python `needle in hay` for strings. -/
def pyIn (needle hay : String) : Bool := subChars needle.data hay.data

/-- Python `s.split(" ")`: split on each single space, keeping empties. -/
def splitSpaceChars : List Char → List (List Char)
  | [] => [[]]
  | c :: cs =>
    if c = ' ' then [] :: splitSpaceChars cs
    else
      match splitSpaceChars cs with
      | g :: gs => (c :: g) :: gs
      | [] => [[c]]

/-- A persisted CSV row, one entry per cell. -/
abbrev Row := List String

/-- Python list indexing `l[k]`: negative indices count from the end,
out-of-range raises `IndexError` (`none`). -/
def pyIdx (l : Row) (k : Int) : Option String :=
  if 0 ≤ k then l.get? k.toNat
  else
    let j : Int := (l.length : Int) + k
    if 0 ≤ j then l.get? j.toNat else none

/-- First comma-separated field of a line, `line.split(",")[0]` (always
present in Python since `split` never returns an empty list). -/
def firstCell (r : Row) : String := r.headD ""

/-- Outcome of the file-validity check of `IPDGS.py` section 5.3.1: either
the chunk index of the last line (from which the resume cursor is
computed) or the raised error, `corrupt` carrying the printed
`Line {i + 2}, expected chunk {current_chunk + 1}` data and `parse`
standing for a `ValueError`/`IndexError` with no such message. -/
inductive LoadErr where
  | parse : LoadErr
  | corrupt (lineNo : Nat) (expected : Int) : LoadErr
deriving DecidableEq, Repr

/-- The loop `for i in range(1, len(lines) - 1)` of section 5.3.1: walk
consecutive line pairs, parsing each line's first field as its chunk
index; `idx` is the 0-based position in the file of the first line of the
current pair.  On the first adjacent pair whose indices do not differ by
exactly 1 it raises, reporting the 1-based file line of the second row of
the pair (`idx + 2`) and the expected chunk index. -/
def checkPairs : Nat → List Row → Except LoadErr Unit
  | _, [] => .ok ()
  | _, [_] => .ok ()
  | idx, a :: b :: rest =>
    match pyInt (firstCell a), pyInt (firstCell b) with
    | some cur, some nxt =>
      if nxt - cur ≠ 1 then .error (.corrupt (idx + 2) (cur + 1))
      else checkPairs (idx + 1) (b :: rest)
    | _, _ => .error .parse

/-- The whole validity check: pair walk over `lines[1:]`, then
`last_chunk = int(lines[-1].split(",")[0])`.  The header participates in
the final parse only when the file has no data rows. -/
def validate (lines : List Row) : Except LoadErr Int := do
  checkPairs 1 (lines.drop 1)
  match lines.getLast? with
  | none => throw .parse
  | some l =>
    match pyInt (firstCell l) with
    | none => throw .parse
    | some c => pure c

/-!
## Water-index computation (IPDGS step 3 and `calculation_functions`)

The band rasters are `uint16` images cast with `astype(int)`; the four
index expressions act elementwise, so each is embedded as its per-pixel
scalar function.  NumPy's float semantics for integer division with
`np.seterr(divide="ignore", invalid="ignore")` are: `0/0` is NaN, `x/0`
for `x ≠ 0` is a signed infinity, and no error is raised either way.
-/

/-- A NumPy float64 value as produced by the index arithmetic: a real
(rational) number, NaN, or a signed infinity. -/
inductive PyFloat where
  | num (q : ℚ) : PyFloat
  | nan : PyFloat
  | inf : PyFloat
  | ninf : PyFloat
deriving DecidableEq, Repr

/-- NumPy true division of two (integer-valued) pixels under
`np.seterr(divide="ignore", invalid="ignore")`. -/
def pyDiv (a b : ℚ) : PyFloat :=
  if b = 0 then
    if a = 0 then .nan else if 0 < a then .inf else .ninf
  else .num (a / b)

/-- `ndwi = ((green - nir) / (green + nir))`, IPDGS.py line 198. -/
def ndwi_px (green nir : ℤ) : PyFloat :=
  pyDiv ((green : ℚ) - nir) ((green : ℚ) + nir)

/-- `mndwi = ((green - swir1) / (green + swir1))`, IPDGS.py line 199. -/
def mndwi_px (green swir1 : ℤ) : PyFloat :=
  pyDiv ((green : ℚ) - swir1) ((green : ℚ) + swir1)

/-- `awei_sh = (green + 2.5 * blue - 1.5 * (nir + swir1) - 0.25 * swir2)`,
IPDGS.py line 200. -/
def awei_sh_px (blue green nir swir1 swir2 : ℤ) : ℚ :=
  (green : ℚ) + 5/2 * blue - 3/2 * ((nir : ℚ) + swir1) - 1/4 * swir2

/-- `awei_nsh = (4 * (green - swir1) - (0.25 * nir + 2.75 * swir2))`,
IPDGS.py line 201. -/
def awei_nsh_px (green nir swir1 swir2 : ℤ) : ℚ :=
  4 * ((green : ℚ) - swir1) - (1/4 * (nir : ℚ) + 11/4 * swir2)

/-- `calculation_functions.get_indices` NDWI pixel:
`np.where((green + nir) == 0, -1, -(green - nir) / (green + nir))`. -/
def get_indices_ndwi_px (green nir : ℤ) : PyFloat :=
  if (green : ℚ) + nir = 0 then .num (-1)
  else .num (-(((green : ℚ) - nir) / ((green : ℚ) + nir)))

/-- `calculation_functions.get_indices` MNDWI pixel. -/
def get_indices_mndwi_px (green swir1 : ℤ) : PyFloat :=
  if (green : ℚ) + swir1 = 0 then .num (-1)
  else .num (-(((green : ℚ) - swir1) / ((green : ℚ) + swir1)))

/-- `calculation_functions.get_indices` AWEI-SH pixel:
`blue + 2.5 * green - 1.5 * (nir + swir1) - 0.25 * swir2` (note the
swapped roles of blue and green compared with IPDGS step 3). -/
def get_indices_awei_sh_px (blue green nir swir1 swir2 : ℤ) : ℚ :=
  (blue : ℚ) + 5/2 * green - 3/2 * ((nir : ℚ) + swir1) - 1/4 * swir2

/-- `calculation_functions.get_indices` AWEI-NSH pixel (negated). -/
def get_indices_awei_nsh_px (green nir swir1 swir2 : ℤ) : ℚ :=
  -(4 * ((green : ℚ) - swir1) - (1/4 * (nir : ℚ) + 11/4 * swir2))

/-- The NDWI pixel value asserted by the spec (§4.1): the closed-form
ratio, with a zero denominator mapped to NaN. -/
def spec_NDWI (green nir : ℤ) : PyFloat :=
  if (green : ℚ) + nir = 0 then .nan
  else .num (((green : ℚ) - nir) / ((green : ℚ) + nir))

/-- The MNDWI pixel value asserted by the spec (§4.1). -/
def spec_MNDWI (green swir1 : ℤ) : PyFloat :=
  if (green : ℚ) + swir1 = 0 then .nan
  else .num (((green : ℚ) - swir1) / ((green : ℚ) + swir1))

/-- The AWEI-SH pixel value asserted by the spec (§4.1). -/
def spec_AWEI_SH (blue green nir swir1 swir2 : ℤ) : ℚ :=
  (green : ℚ) + 5/2 * blue - 3/2 * ((nir : ℚ) + swir1) - 1/4 * swir2

/-- The AWEI-NSH pixel value asserted by the spec (§4.1). -/
def spec_AWEI_NSH (green nir swir1 swir2 : ℤ) : ℚ :=
  4 * ((green : ℚ) - swir1) - (1/4 * (nir : ℚ) + 11/4 * swir2)

/-!
## Completion audit (IPDGS section 5.3.2)

For each data line `lines[j]` (`j` from 1), the code reads
`int(lines[j].split(",")[1])` and `int(lines[j].split(",")[2])` (an
unparseable or missing count propagates as an uncaught exception, `none`
below), then probes the coordinate cell at the count-dependent offset:
column `2 + reservoirs` respectively `7 + bodies`, flagging the row when
that cell is absent, empty, or does not begin with `[`.  Flagged rows are
recorded by their 0-based data-row index `j - 1` and the two defect lists
are merged by `misc.combine_sort_unique`.
-/

/-- `True` when the probed coordinate cell is absent (`IndexError`), empty
(`res_coord[0]` raising), or its first character is not `[` — the
`res_no_coords` / `body_no_coords` computation of the source. -/
def cellNotBox (r : Row) (k : Int) : Bool :=
  match pyIdx r k with
  | none => true
  | some c =>
    match c.data with
    | [] => true
    | ch :: _ => ch ≠ '['

/-- The two declared counts `int(fields[1])`, `int(fields[2])`; `none`
models the uncaught exception when either is absent or non-numeric. -/
def countsOf (r : Row) : Option (Int × Int) :=
  match pyIdx r 1, pyIdx r 2 with
  | some f1, some f2 =>
    (match pyInt f1, pyInt f2 with
     | some a, some b => some (a, b)
     | _, _ => none)
  | _, _ => none

/-- Reservoir and body defect flags of one data row, in source order. -/
def rowFlags (r : Row) : Option (Bool × Bool) :=
  (countsOf r).map fun p =>
    (decide (p.1 ≠ 0) && cellNotBox r (2 + p.1),
     decide (p.2 ≠ 0) && cellNotBox r (7 + p.2))

/-- The `for j in range(1, len(lines))` scan accumulating
`reservoir_rows` and `body_rows` (each entry `j - 1`); `j` is the position
in the file of the row at the head of the remaining list. -/
def auditScan : Nat → List Row → Option (List Nat × List Nat)
  | _, [] => some ([], [])
  | j, r :: rs =>
    match rowFlags r with
    | none => none
    | some fl =>
      match auditScan (j + 1) rs with
      | none => none
      | some (a, b) =>
        some ((if fl.1 then [j - 1] else []) ++ a,
              (if fl.2 then [j - 1] else []) ++ b)

/-- Modelled from the spec: `misc.combine_sort_unique` (module `misc` is
not among the sources) — "Output is the union, ascending, de-duplicated"
of the two defect lists. -/
def combine_sort_unique (a b : List Nat) : List Nat :=
  List.insertionSort (· ≤ ·) ((a ++ b).dedup)

/-- The full completion audit over the loaded file (header at position 0):
`invalid_rows = combine_sort_unique(reservoir_rows, body_rows)`. -/
def auditLines (lines : List Row) : Option (List Nat) :=
  (auditScan 1 (lines.drop 1)).map fun p => combine_sort_unique p.1 p.2

/-- The repair predicate as the claim states it: a declared strictly
positive reservoir count whose coordinate cell at the count-dependent
offset is absent or does not parse as coordinate data, or symmetrically
for the body count. -/
def specNeedsRepair (r : Row) : Prop :=
  (∃ p : Int × Int, countsOf r = some p ∧ 0 < p.1 ∧ cellNotBox r (2 + p.1) = true) ∨
  (∃ p : Int × Int, countsOf r = some p ∧ 0 < p.2 ∧ cellNotBox r (7 + p.2) = true)


/-!
## Truncation (the "back" command, IPDGS lines 472-478)

`rows = list(csv.reader(...))` followed by `for j in range(n_backs):
rows.pop()` — pop the last row `n` times over the whole csv row list
(header included); popping an empty list raises an uncaught `IndexError`,
modelled as `none`.
-/

/-- `n` iterations of `rows.pop()`. -/
def popN : List Row → Nat → Option (List Row)
  | l, 0 => some l
  | [], _ + 1 => none
  | l@(_ :: _), n + 1 => popN l.dropLast n

/-!
## Labelling session (IPDGS step 6)

The interactive loop is embedded as a state machine driven by the finite
list of operator inputs (`script`) and by the external box-selection
collaborator, an oracle `Roi` mapping `(chunk index, requested count)` to
the list of box cells it returns.  Appends are modelled post
`blank_entry_check` (Modelled from the spec: `blank_row_purge` removes the
blank line that the `"\n" + entry` append style interposes; module
`data_handling` is not among the sources), so an append simply adds the
new row at the end of the cell-level file.
-/

/-- The external box-selection collaborator `prompt_roi`. -/
abbrev Roi := Int → Int → List String

/-- `n_backs`: `int(n_reservoirs.split(" ")[1])` with any exception
(missing word or non-numeric) defaulting to 1. -/
def parseNBacks (nRes : String) : Int :=
  match (splitSpaceChars nRes.data).get? 1 with
  | some ds => (pyIntChars ds).getD 1
  | none => 1

/-- `while len(entry_list) < 8: entry_list.append("")`. -/
def pad8 (l : List String) : List String :=
  l ++ List.replicate (8 - l.length) ""

/-- The final `entry_list` of a successful per-chunk cycle at cursor `i`
with accepted reservoir count `n` and body count `m`:
`[i, n, ""]`, the reservoir boxes when `n ≠ 0`, padding to 8 columns,
`entry_list[2] = m`, then the body boxes when `m ≠ 0`. -/
def entryCells (i : Int) (n m : Int) (roi : Roi) : Row :=
  (pad8 ([toString i, toString n, ""] ++ (if n ≠ 0 then roi i n else []))).set 2
      (toString m) ++ (if m ≠ 0 then roi i m else [])

/-- `",".join` over the cells — the text of the written csv line. -/
def serializeRow : Row → String
  | [] => ""
  | [c] => c
  | c :: cs => c ++ "," ++ serializeRow cs

/-- Resolution of the bare `except:` handler at lines 450-486, given the
(stringified) `n_reservoirs` and `n_bodies` in scope: `break` beats
`back`; `back` during data correction only restarts the cycle; any other
input re-prompts. -/
inductive ExcRes where
  | brk : ExcRes
  | backCorr : ExcRes
  | back (n : Int) : ExcRes
  | reprompt : ExcRes
deriving DecidableEq, Repr

/-- The handler's decision. -/
def exceptEval (dc : Bool) (nRes nBodies : String) : ExcRes :=
  if pyIn "break" nBodies || pyIn "break" nRes then .brk
  else if pyIn "back" nBodies || pyIn "back" nRes then
    if dc then .backCorr else .back (parseNBacks nRes)
  else .reprompt

/-- Result of one per-chunk cycle (the `while True` loop): a completed
`entry_list` to commit, a truncation request, a restart after `back`
during correction, a break, or exhaustion of the operator script while a
prompt is blocking. -/
inductive CycleOut where
  | commit (entry : Row) (rest : List String) : CycleOut
  | doBack (n : Int) (rest : List String) : CycleOut
  | backCorrection (rest : List String) : CycleOut
  | doBreak (rest : List String) : CycleOut
  | stuck : CycleOut
deriving DecidableEq, Repr

/-- One attempt of the per-chunk `while True` loop body, given the answer
`nRes` to the pending `how many reservoirs?` prompt and the remaining
operator inputs `script` (not consulted in the `retry0` outcome).
Mirrors the source: a parsed count above 5 prints `maximum of 5`, reads a
replacement, and the string-vs-int `while` comparison then lands that
replacement in the `except:` handler; a count at most 5 (negative
included) is accepted, the boxes are requested, the body count is read
and, when numeric, the cycle commits; non-numeric answers go to the
handler.  `retry0` means the handler re-prompted with no further input
consumed beyond `nRes`; `retry1` means one input of `script` was also
consumed. -/
inductive Attempt where
  | done (o : CycleOut) : Attempt
  | retry0 : Attempt
  | retry1 : Attempt
deriving DecidableEq, Repr

/-- The try/except body of one attempt. -/
def attempt (dc : Bool) (i : Int) (roi : Roi) (nRes : String)
    (script : List String) : Attempt :=
  match pyInt nRes with
  | some n =>
    match script with
    | [] => .done .stuck
    | s :: rest =>
      if 5 < n then
        match exceptEval dc s "" with
        | .brk => .done (.doBreak rest)
        | .backCorr => .done (.backCorrection rest)
        | .back k => .done (.doBack k rest)
        | .reprompt => .retry1
      else
        match pyInt s with
        | some m => .done (.commit (entryCells i n m roi) rest)
        | none =>
          match exceptEval dc (toString n) s with
          | .brk => .done (.doBreak rest)
          | .backCorr => .done (.backCorrection rest)
          | .back k => .done (.doBack k rest)
          | .reprompt => .retry1
  | none =>
    match exceptEval dc nRes "" with
    | .brk => .done (.doBreak script)
    | .backCorr => .done (.backCorrection script)
    | .back k => .done (.doBack k script)
    | .reprompt => .retry0

/-- The per-chunk cycle over the operator inputs, the head serving as the
answer to the pending reservoir prompt: run one attempt and, on a
re-prompt, retry with the next input. -/
def cycleL (dc : Bool) (i : Int) (roi : Roi) : List String → CycleOut
  | [] => .stuck
  | nRes :: script =>
    match attempt dc i roi nRes script with
    | .done o => o
    | .retry0 => cycleL dc i roi script
    | .retry1 =>
      match script with
      | [] => .stuck
      | _ :: rest => cycleL dc i roi rest

/-- One per-chunk cycle (the `while True` loop of section 6.2) with the
pending reservoir answer `nRes` and remaining inputs `script`. -/
def cycle (dc : Bool) (i : Int) (roi : Roi) (nRes : String)
    (script : List String) : CycleOut :=
  cycleL dc i roi (nRes :: script)

/-- The mutable state of the labelling loop: the persisted file (cell
level), the stale in-memory `lines` snapshot used by the correction pass,
the cursor `i`, the correction-mode data, `last_chunk`, and the total
chunk count `len(index_chunks[0])`. -/
structure Sess where
  file : List Row
  linesSnap : List Row
  i : Int
  dataCorrection : Bool
  invalidRows : List Nat
  invalidIdx : Nat
  lastChunk : Int
  total : Nat
deriving DecidableEq, Repr

/-- Result of one outer-loop iteration: continue with an updated state
and the unread operator inputs, halt (`break_flag`, cursor past the last
chunk, or a blocking prompt with no input left), or die on the uncaught
`IndexError` of over-popping (`crashed`; the popped rows were never
written, so the state carries the unchanged file). -/
inductive StepRes where
  | next (st : Sess) (rest : List String) : StepRes
  | paused (st : Sess) : StepRes
  | halted (st : Sess) : StepRes
  | crashed (st : Sess) : StepRes
deriving DecidableEq, Repr

/-- One iteration of `while i < len(index_chunks[0])`: run a per-chunk
cycle and apply its effect.  On a commit the source first executes
`i += 1` (line 445) and only then writes: in normal mode it appends the
entry; in correction mode it assigns `lines[i]` — with the incremented
`i`, hence the line one past the audited data-row index, which is exactly
the file position of that data row — rewrites the whole file from the
snapshot, and either advances to the next audit entry or, when the list
is exhausted, returns to normal mode with `i = last_chunk + 1`. -/
def sessionStep (st : Sess) (script : List String) (roi : Roi) : StepRes :=
  if st.i < (st.total : Int) then
    match script with
    | [] => .halted st
    | nRes :: rest =>
      match cycle st.dataCorrection st.i roi nRes rest with
      | .stuck => .halted st
      | .doBreak _ => .paused st
      | .backCorrection rest' => .next st rest'
      | .doBack n rest' =>
        match popN st.file n.toNat with
        | none => .crashed st
        | some f' => .next { st with file := f', i := st.i - n } rest'
      | .commit entry rest' =>
        let i' := st.i + 1
        if st.dataCorrection then
          let newLines := st.linesSnap.set i'.toNat entry
          let idx' := st.invalidIdx + 1
          if st.invalidRows.length ≤ idx' then
            .next { st with file := newLines, linesSnap := newLines,
                            i := st.lastChunk + 1, dataCorrection := false,
                            invalidIdx := idx' } rest'
          else
            .next { st with file := newLines, linesSnap := newLines,
                            i := (st.invalidRows.getD idx' 0 : Int),
                            invalidIdx := idx' } rest'
        else
          .next { st with file := st.file ++ [entry], i := i' } rest'
  else .halted st

/-- The outer loop, fuelled: each iteration consumes at least one
operator input, so fuel `script.length` suffices to drain any script. -/
def sessionLoop : Nat → Sess → List String → Roi → Sess
  | 0, st, _, _ => st
  | fuel + 1, st, script, roi =>
    match sessionStep st script roi with
    | .next st' rest => sessionLoop fuel st' rest roi
    | .paused st' => st'
    | .halted st' => st'
    | .crashed st' => st'

/-- Run the labelling loop on a full operator script. -/
def sessionRun (st : Sess) (script : List String) (roi : Roi) : Sess :=
  sessionLoop script.length st script roi

/-- The header line written by the `new`-file recovery action, as cells. -/
def headerRow : Row :=
  ["chunk", "reservoirs", "water bodies", "reservoir coordinates",
   "", "", "", "", "water body coordinates"]

/-- The sentinel bootstrap data row `0, 1, 0` written by the `new`-file
recovery action, as cells. -/
def sentinelRow : Row := ["0", " 1", " 0"]

/-!
## Helper lemmas
-/

theorem popN_of_le (n : Nat) :
    ∀ l : List Row, n ≤ l.length → popN l n = some (l.take (l.length - n)) := by
  induction n with
  | zero => intro l _; simp [popN]
  | succ k ih =>
    intro l hl
    match l with
    | [] => simp at hl
    | r :: t =>
      have hl' : k ≤ t.length := by
        simp only [List.length_cons] at hl; omega
      have hk : k ≤ (r :: t).dropLast.length := by
        simp only [List.length_dropLast, List.length_cons]; omega
      have hdl : (r :: t).dropLast.length = t.length := by
        simp only [List.length_dropLast, List.length_cons]
        omega
      have hrec := ih _ hk
      rw [hdl] at hrec
      calc popN (r :: t) (k + 1) = popN (r :: t).dropLast k := rfl
        _ = some ((r :: t).dropLast.take (t.length - k)) := hrec
        _ = some ((r :: t).take ((r :: t).length - (k + 1))) := by
            rw [List.dropLast_eq_take, List.take_take]
            congr 2
            simp only [List.length_cons]
            omega

theorem take_get?_lt {α : Type} (l : List α) (n j : Nat) (h : j < n) :
    (l.take n).get? j = l.get? j := by
  simp [List.get?_eq_getElem?, List.getElem?_take_of_lt h]

theorem combine_sort_unique_sorted (a b : List Nat) :
    List.Sorted (· ≤ ·) (combine_sort_unique a b) :=
  List.sorted_insertionSort _ _

theorem combine_sort_unique_nodup (a b : List Nat) :
    (combine_sort_unique a b).Nodup :=
  ((List.perm_insertionSort _ _).nodup_iff).mpr ((a ++ b).nodup_dedup)

theorem combine_sort_unique_mem (a b : List Nat) (k : Nat) :
    k ∈ combine_sort_unique a b ↔ k ∈ a ∨ k ∈ b := by
  rw [combine_sort_unique, (List.perm_insertionSort _ _).mem_iff,
    List.mem_dedup, List.mem_append]

/-!
## C2 — water-index formulas and division by zero
-/

/-- C2 (counterexample).  The claim — the computation returns the
closed-form ratios with every zero-denominator pixel mapped to NaN — fails
on the code: the IPDGS step-3 expression yields a signed infinity when the
denominator is zero but the numerator is not (possible for general
integer rasters, e.g. green = 1, nir = -1), and
`calculation_functions.get_indices` maps zero denominators to -1 rather
than NaN and negates the NDWI ratio. -/
theorem C2_index_counterexample :
    ndwi_px 1 (-1) = .inf ∧ ndwi_px 1 (-1) ≠ spec_NDWI 1 (-1) ∧
    get_indices_ndwi_px 0 0 ≠ spec_NDWI 0 0 ∧
    get_indices_ndwi_px 2 1 ≠ spec_NDWI 2 1 := by
  refine ⟨by norm_num [ndwi_px, pyDiv], ?_, ?_, ?_⟩ <;>
    · norm_num [ndwi_px, pyDiv, spec_NDWI, get_indices_ndwi_px]
      try decide

/-- C2 (amended).  The IPDGS step-3 computation matches the four
formulas of the claim elementwise with no error raised; NDWI/MNDWI
pixels with zero denominator yield NaN whenever the bands are
non-negative (always the case for the uint16-derived rasters), and more
generally exactly when the numerator is also zero; the AWEI forms agree
unconditionally. -/
theorem C2_index_formulas (blue green nir swir1 swir2 : ℤ) :
    (0 ≤ green → 0 ≤ nir → ndwi_px green nir = spec_NDWI green nir) ∧
    (0 ≤ green → 0 ≤ swir1 → mndwi_px green swir1 = spec_MNDWI green swir1) ∧
    (green + nir ≠ 0 → ndwi_px green nir = spec_NDWI green nir) ∧
    (green + swir1 ≠ 0 → mndwi_px green swir1 = spec_MNDWI green swir1) ∧
    (green + nir = 0 → green - nir = 0 → ndwi_px green nir = PyFloat.nan) ∧
    awei_sh_px blue green nir swir1 swir2 = spec_AWEI_SH blue green nir swir1 swir2 ∧
    awei_nsh_px green nir swir1 swir2 = spec_AWEI_NSH green nir swir1 swir2 := by
  refine ⟨?_, ?_, ?_, ?_, ?_, rfl, rfl⟩
  · intro hg hn
    by_cases h : (green : ℚ) + nir = 0
    · have hz : green + nir = 0 := by exact_mod_cast h
      have h1 : green = 0 := by omega
      have h2 : nir = 0 := by omega
      subst h1; subst h2
      simp [ndwi_px, pyDiv, spec_NDWI]
    · simp [ndwi_px, pyDiv, spec_NDWI, h]
  · intro hg hs
    by_cases h : (green : ℚ) + swir1 = 0
    · have hz : green + swir1 = 0 := by exact_mod_cast h
      have h1 : green = 0 := by omega
      have h2 : swir1 = 0 := by omega
      subst h1; subst h2
      simp [mndwi_px, pyDiv, spec_MNDWI]
    · simp [mndwi_px, pyDiv, spec_MNDWI, h]
  · intro h
    have h' : (green : ℚ) + nir ≠ 0 := by
      intro hc
      exact h (by exact_mod_cast hc)
    simp [ndwi_px, pyDiv, spec_NDWI, h']
  · intro h
    have h' : (green : ℚ) + swir1 ≠ 0 := by
      intro hc
      exact h (by exact_mod_cast hc)
    simp [mndwi_px, pyDiv, spec_MNDWI, h']
  · intro hd hn
    have h1 : (green : ℚ) + nir = 0 := by exact_mod_cast hd
    have h2 : (green : ℚ) - nir = 0 := by exact_mod_cast hn
    simp [ndwi_px, pyDiv, h1, h2]

/-- C2 (witness for the amended theorem). -/
theorem C2_index_formulas_witness :
    ndwi_px 0 0 = spec_NDWI 0 0 ∧ mndwi_px 3 1 = spec_MNDWI 3 1 ∧
    awei_sh_px 1 2 3 4 5 = spec_AWEI_SH 1 2 3 4 5 :=
  ⟨(C2_index_formulas 0 0 0 0 0).1 (by norm_num) (by norm_num),
   ((C2_index_formulas 0 3 0 1 0).2.2.2.1) (by norm_num),
   (C2_index_formulas 1 2 3 4 5).2.2.2.2.2.1⟩

theorem pyIn_break_empty : pyIn "break" "" = false := rfl

theorem pyIn_back_empty : pyIn "back" "" = false := rfl

theorem cycle_commit (dc : Bool) (i : Int) (roi : Roi) (s bs : String)
    (rest : List String) (n m : Int) (hs : pyInt s = some n) (hn : n ≤ 5)
    (hbs : pyInt bs = some m) :
    cycle dc i roi s (bs :: rest) = .commit (entryCells i n m roi) rest := by
  have hn' : ¬ (5 : Int) < n := by omega
  unfold cycle
  rw [cycleL]
  simp [attempt, hs, hbs, hn']

theorem cycle_break_at_res (dc : Bool) (i : Int) (roi : Roi) (s : String)
    (script : List String) (hs : pyInt s = none) (hb : pyIn "break" s = true) :
    cycle dc i roi s script = .doBreak script := by
  cases script <;>
    · unfold cycle
      rw [cycleL]
      simp [attempt, hs, exceptEval, pyIn_break_empty, hb]

theorem cycle_break_at_body (dc : Bool) (i : Int) (roi : Roi) (s bs : String)
    (rest : List String) (n : Int) (hs : pyInt s = some n) (hn : n ≤ 5)
    (hbs : pyInt bs = none) (hb : pyIn "break" bs = true) :
    cycle dc i roi s (bs :: rest) = .doBreak rest := by
  have hn' : ¬ (5 : Int) < n := by omega
  unfold cycle
  rw [cycleL]
  simp [attempt, hs, hbs, hn', exceptEval, hb]

theorem cycle_back_at_res (dc : Bool) (i : Int) (roi : Roi) (s : String)
    (script : List String) (hs : pyInt s = none)
    (hbrk : pyIn "break" s = false) (hb : pyIn "back" s = true) :
    cycle dc i roi s script =
      if dc then .backCorrection script else .doBack (parseNBacks s) script := by
  cases script <;> cases dc <;>
    · unfold cycle
      rw [cycleL]
      simp [attempt, hs, exceptEval, pyIn_break_empty, pyIn_back_empty, hbrk, hb]

theorem cycle_back_at_body (dc : Bool) (i : Int) (roi : Roi) (s bs : String)
    (rest : List String) (n : Int) (hs : pyInt s = some n) (hn : n ≤ 5)
    (hbs : pyInt bs = none) (hbrk : pyIn "break" bs = false)
    (hbrk2 : pyIn "break" (toString n) = false) (hb : pyIn "back" bs = true) :
    cycle dc i roi s (bs :: rest) =
      if dc then .backCorrection rest
      else .doBack (parseNBacks (toString n)) rest := by
  have hn' : ¬ (5 : Int) < n := by omega
  unfold cycle
  rw [cycleL]
  simp [attempt, hs, hbs, hn', exceptEval, hbrk, hbrk2, hb]
  cases dc <;> simp

theorem cycle_gt5_reprompt (dc : Bool) (i : Int) (roi : Roi)
    (s junk s' : String) (rest' : List String) (n : Int)
    (hs : pyInt s = some n) (hn : 5 < n)
    (hb1 : pyIn "break" junk = false) (hb2 : pyIn "back" junk = false) :
    cycle dc i roi s (junk :: s' :: rest') = cycle dc i roi s' rest' := by
  unfold cycle
  rw [cycleL]
  simp [attempt, hs, hn, exceptEval, pyIn_break_empty, pyIn_back_empty, hb1, hb2]

theorem cycle_invalid_reprompt (dc : Bool) (i : Int) (roi : Roi)
    (s s' : String) (rest' : List String) (hs : pyInt s = none)
    (hb1 : pyIn "break" s = false) (hb2 : pyIn "back" s = false) :
    cycle dc i roi s (s' :: rest') = cycle dc i roi s' rest' := by
  unfold cycle
  rw [cycleL]
  simp [attempt, hs, exceptEval, pyIn_break_empty, pyIn_back_empty, hb1, hb2]

theorem entryCells_get1 (i n m : Int) (roi : Roi) :
    (entryCells i n m roi).get? 1 = some (toString n) := rfl

theorem entryCells_get2 (i n m : Int) (roi : Roi) :
    (entryCells i n m roi).get? 2 = some (toString m) := rfl

theorem entryCells_get0 (i n m : Int) (roi : Roi) :
    (entryCells i n m roi).get? 0 = some (toString i) := rfl

theorem sessionStep_paused (st : Sess) (roi : Roi) (nRes : String)
    (rest rest' : List String) (hi : st.i < (st.total : Int))
    (hc : cycle st.dataCorrection st.i roi nRes rest = .doBreak rest') :
    sessionStep st (nRes :: rest) roi = .paused st := by
  unfold sessionStep
  rw [if_pos hi]
  simp [hc]

theorem sessionStep_back (st : Sess) (roi : Roi) (nRes : String)
    (rest rest' : List String) (n : Int) (hi : st.i < (st.total : Int))
    (hc : cycle st.dataCorrection st.i roi nRes rest = .doBack n rest')
    (hn : n.toNat ≤ st.file.length) :
    sessionStep st (nRes :: rest) roi =
      .next { st with file := st.file.take (st.file.length - n.toNat),
                      i := st.i - n } rest' := by
  unfold sessionStep
  rw [if_pos hi]
  simp [hc, popN_of_le _ _ hn]

theorem sessionStep_commit_normal (st : Sess) (roi : Roi) (nRes : String)
    (rest rest' : List String) (entry : Row) (hi : st.i < (st.total : Int))
    (hdc : st.dataCorrection = false)
    (hc : cycle st.dataCorrection st.i roi nRes rest = .commit entry rest') :
    sessionStep st (nRes :: rest) roi =
      .next { st with file := st.file ++ [entry], i := st.i + 1 } rest' := by
  unfold sessionStep
  rw [if_pos hi]
  rw [hdc] at hc
  simp [hc, hdc]

theorem sessionStep_commit_corr_last (st : Sess) (roi : Roi) (nRes : String)
    (rest rest' : List String) (entry : Row) (hi : st.i < (st.total : Int))
    (hdc : st.dataCorrection = true)
    (hc : cycle st.dataCorrection st.i roi nRes rest = .commit entry rest')
    (hlast : st.invalidRows.length ≤ st.invalidIdx + 1) :
    sessionStep st (nRes :: rest) roi =
      .next { st with file := st.linesSnap.set (st.i + 1).toNat entry,
                      linesSnap := st.linesSnap.set (st.i + 1).toNat entry,
                      i := st.lastChunk + 1, dataCorrection := false,
                      invalidIdx := st.invalidIdx + 1 } rest' := by
  unfold sessionStep
  rw [if_pos hi]
  rw [hdc] at hc
  simp [hc, hdc, hlast]

theorem sessionStep_commit_corr_mid (st : Sess) (roi : Roi) (nRes : String)
    (rest rest' : List String) (entry : Row) (hi : st.i < (st.total : Int))
    (hdc : st.dataCorrection = true)
    (hc : cycle st.dataCorrection st.i roi nRes rest = .commit entry rest')
    (hmid : st.invalidIdx + 1 < st.invalidRows.length) :
    sessionStep st (nRes :: rest) roi =
      .next { st with file := st.linesSnap.set (st.i + 1).toNat entry,
                      linesSnap := st.linesSnap.set (st.i + 1).toNat entry,
                      i := (st.invalidRows.getD (st.invalidIdx + 1) 0 : Int),
                      invalidIdx := st.invalidIdx + 1 } rest' := by
  unfold sessionStep
  rw [if_pos hi]
  rw [hdc] at hc
  simp [hc, hdc, (show ¬ st.invalidRows.length ≤ st.invalidIdx + 1 by omega)]

theorem sessionLoop_of_paused (f : Nat) (st st' : Sess) (script : List String)
    (roi : Roi) (h : sessionStep st script roi = .paused st') :
    sessionLoop (f + 1) st script roi = st' := by
  rw [sessionLoop, h]

theorem sessionLoop_of_next (f : Nat) (st st' : Sess)
    (script rest : List String) (roi : Roi)
    (h : sessionStep st script roi = .next st' rest) :
    sessionLoop (f + 1) st script roi = sessionLoop f st' rest roi := by
  rw [sessionLoop, h]

theorem sessionStep_done (st : Sess) (script : List String) (roi : Roi)
    (hi : ¬ st.i < (st.total : Int)) :
    sessionStep st script roi = .halted st := by
  unfold sessionStep
  rw [if_neg hi]

/-- The second labelled data row of the §8 scenario as the code writes it:
8 cells, reservoir slots at columns 3..7, no body cell for a zero body
count. -/
def scenarioRow : Row := ["1", "1", "0", "[0,0,10,10]", "", "", "", ""]

/-- §8 scenario start state: fresh store (header + sentinel), cursor at
chunk 1, normal mode, 4 chunks in total. -/
def sess8 : Sess :=
  { file := [headerRow, sentinelRow], linesSnap := [headerRow, sentinelRow],
    i := 1, dataCorrection := false, invalidRows := [], invalidIdx := 0,
    lastChunk := 0, total := 4 }

/-- The box-selection oracle of the §8 scenario. -/
def roi8 : Roi := fun i n => if i = 1 ∧ n = 1 then ["[0,0,10,10]"] else []

/-- §8 state after chunk 1 was labelled: three csv rows, cursor at 2. -/
def scen8 : Sess :=
  { file := [headerRow, sentinelRow, scenarioRow],
    linesSnap := [headerRow, sentinelRow],
    i := 2, dataCorrection := false, invalidRows := [], invalidIdx := 0,
    lastChunk := 0, total := 4 }

/-!
## C9 — reservoir-count prompt acceptance
-/

/-- C9 (counterexample).  The claim — an input is accepted as a count
iff it is a non-negative integer at most 5 — fails on the code: the
negative entry `-3` parses through `int(...)`, is not caught by the
`while n_reservoirs > 5` guard, and the cycle commits it as the recorded
reservoir count.  (`prompt_roi` returns immediately with no boxes when
asked for a negative number of boxes, hence the empty oracle.) -/
theorem C9_count_counterexample :
    cycle false 1 (fun _ _ => []) "-3" ["0"] =
      .commit ["1", "-3", "0", "", "", "", "", ""] [] ∧
    pyInt "-3" = some (-3) ∧ ((-3 : Int) < 0) :=
  ⟨rfl, rfl, by decide⟩

/-- C9 (amended).  At the reservoir prompt an input is accepted as a
count iff it parses as a Python integer at most 5 (negative integers
included); an entry exceeding 5 — as any other non-command input — only
causes local re-prompts that touch neither store nor cursor, and the
count finally recorded in the entry row (cell 1) is the accepted value. -/
theorem C9_count_acceptance (dc : Bool) (i : Int) (roi : Roi) :
    (∀ (s bs : String) (rest : List String) (n m : Int),
      pyInt s = some n → n ≤ 5 → pyInt bs = some m →
      cycle dc i roi s (bs :: rest) = .commit (entryCells i n m roi) rest ∧
      (entryCells i n m roi).get? 1 = some (toString n) ∧
      (entryCells i n m roi).get? 2 = some (toString m) ∧
      (entryCells i n m roi).get? 0 = some (toString i)) ∧
    (∀ (s junk s2 bs2 : String) (rest2 : List String) (n n2 m2 : Int),
      pyInt s = some n → 5 < n →
      pyIn "break" junk = false → pyIn "back" junk = false →
      pyInt s2 = some n2 → n2 ≤ 5 → pyInt bs2 = some m2 →
      cycle dc i roi s (junk :: s2 :: bs2 :: rest2) =
        .commit (entryCells i n2 m2 roi) rest2) := by
  constructor
  · intro s bs rest n m hs hn hbs
    exact ⟨cycle_commit dc i roi s bs rest n m hs hn hbs,
      entryCells_get1 i n m roi, entryCells_get2 i n m roi,
      entryCells_get0 i n m roi⟩
  · intro s junk s2 bs2 rest2 n n2 m2 hs hn hb1 hb2 hs2 hn2 hbs2
    rw [cycle_gt5_reprompt dc i roi s junk s2 (bs2 :: rest2) n hs hn hb1 hb2]
    exact cycle_commit dc i roi s2 bs2 rest2 n2 m2 hs2 hn2 hbs2

/-- C9 (witness for the amended theorem): entering `7`, a discarded
replacement, then `3` and `0` commits the accepted count 3 at chunk 4. -/
theorem C9_count_acceptance_witness :
    cycle false 4 (fun _ _ => []) "7" ["junk", "3", "0"] =
      .commit (entryCells 4 3 0 (fun _ _ => [])) [] ∧
    (entryCells 4 3 0 (fun _ _ => [])).get? 1 = some (toString (3 : Int)) :=
  ⟨(C9_count_acceptance false 4 (fun _ _ => [])).2 "7" "junk" "3" "0" [] 7 3 0
      rfl (by decide) rfl rfl rfl (by decide) rfl,
   ((C9_count_acceptance false 4 (fun _ _ => [])).1 "3" "0" [] 3 0
      rfl (by decide) rfl).2.1⟩

/-!
## C5 — the `back` command
-/

/-- C5 (counterexample).  The claim — `back n` removes the last `n`
rows and moves the cursor back by `n` — fails when the count is entered
at the body prompt: in the state after labelling chunk 1, answering `1`
to the reservoir prompt and `back 2` to the body prompt truncates one
row and moves the cursor to 1, not two rows and cursor 0, because
`n_backs` is parsed from `n_reservoirs` (the string `"1"`), not from the
entered command. -/
theorem C5_back_counterexample :
    sessionRun scen8 ["1", "back 2"] (fun _ _ => ["[9,9,9,9]"]) =
      { scen8 with file := [headerRow, sentinelRow], i := 1 } ∧
    ¬ ((sessionRun scen8 ["1", "back 2"] (fun _ _ => ["[9,9,9,9]"])).file =
          [headerRow] ∧
        (sessionRun scen8 ["1", "back 2"] (fun _ _ => ["[9,9,9,9]"])).i = 0) := by
  constructor
  · rfl
  · intro hcl
    have h1 : sessionRun scen8 ["1", "back 2"] (fun _ _ => ["[9,9,9,9]"]) =
        { scen8 with file := [headerRow, sentinelRow], i := 1 } := rfl
    rw [h1] at hcl
    exact absurd hcl.2 (by decide)

/-- C5 (amended).  During normal labelling, `back n` entered at the
reservoir prompt truncates the store by exactly `n` rows and moves the
cursor back by `n`, discarding the partial entry and restarting the
cycle; a `back` entered at the body prompt always truncates exactly 1 row
(its `n` is ignored, because `n_backs` is parsed from the reservoir
answer), and in the §8 scenario a bare `back` leaves the sentinel as the
only data row with the cursor back at 1. -/
theorem C5_back_command :
    (∀ (st : Sess) (roi : Roi) (s : String) (rest : List String) (n : Int),
      st.dataCorrection = false → st.i < (st.total : Int) →
      pyInt s = none → pyIn "break" s = false → pyIn "back" s = true →
      parseNBacks s = n → n.toNat ≤ st.file.length →
      sessionStep st (s :: rest) roi =
        .next { st with file := st.file.take (st.file.length - n.toNat),
                        i := st.i - n } rest) ∧
    (∀ (st : Sess) (roi : Roi) (bs : String) (rest : List String),
      st.dataCorrection = false → st.i < (st.total : Int) →
      pyInt bs = none → pyIn "break" bs = false → pyIn "back" bs = true →
      1 ≤ st.file.length →
      sessionStep st ("1" :: bs :: rest) roi =
        .next { st with file := st.file.take (st.file.length - 1),
                        i := st.i - 1 } rest) ∧
    sessionRun scen8 ["back"] (fun _ _ => []) =
      { scen8 with file := [headerRow, sentinelRow], i := 1 } := by
  refine ⟨?_, ?_, rfl⟩
  · intro st roi s rest n hdc hi hs hbrk hb hpn hn
    have hcb := cycle_back_at_res st.dataCorrection st.i roi s rest hs hbrk hb
    have hc2 : cycle st.dataCorrection st.i roi s rest = .doBack n rest := by
      rw [hcb, hdc, if_neg (by decide : ¬ (false = true)), hpn]
    exact sessionStep_back st roi s rest rest n hi hc2 hn
  · intro st roi bs rest hdc hi hbs hbrk hb hn
    have hcb := cycle_back_at_body st.dataCorrection st.i roi "1" bs rest 1
      rfl (by decide) hbs hbrk (by decide) hb
    have hpn1 : parseNBacks (toString (1 : Int)) = 1 := rfl
    have hc2 : cycle st.dataCorrection st.i roi "1" (bs :: rest) =
        .doBack 1 rest := by
      rw [hcb, hdc, if_neg (by decide : ¬ (false = true)), hpn1]
    have hstep := sessionStep_back st roi "1" (bs :: rest) rest 1 hi hc2
      (by simpa using hn)
    simpa using hstep

/-- C5 (witness for the amended theorem): `back 2` at the reservoir
prompt of the state after two labelled chunks removes the last two rows
and moves the cursor from 3 back to 1. -/
theorem C5_back_command_witness :
    sessionStep
      { file := [headerRow, sentinelRow, scenarioRow,
                 ["2", "0", "1", "", "", "", "", "", "[5,5,6,6]"]],
        linesSnap := [headerRow, sentinelRow], i := 3,
        dataCorrection := false, invalidRows := [], invalidIdx := 0,
        lastChunk := 0, total := 4 } ["back 2"] (fun _ _ => []) =
      .next
        { file := [headerRow, sentinelRow], linesSnap := [headerRow, sentinelRow],
          i := 1, dataCorrection := false, invalidRows := [], invalidIdx := 0,
          lastChunk := 0, total := 4 } [] := by
  have h := C5_back_command.1
    { file := [headerRow, sentinelRow, scenarioRow,
               ["2", "0", "1", "", "", "", "", "", "[5,5,6,6]"]],
      linesSnap := [headerRow, sentinelRow], i := 3,
      dataCorrection := false, invalidRows := [], invalidIdx := 0,
      lastChunk := 0, total := 4 } (fun _ _ => []) "back 2" [] 2
    rfl (by decide) rfl rfl rfl rfl (by decide)
  simpa using h

/-!
## C6 — truncation bounds
-/

/-- C6 (counterexample).  The claim — truncation beyond the available
rows is a UsageError handled as a local re-prompt with no state change —
fails on the code: on a store with header and sentinel only (L = 1 data
row), `truncate(1)` silently removes the sentinel and reports no error,
and `truncate(3)` dies on an uncaught `IndexError` popping an empty
list. -/
theorem C6_truncate_counterexample :
    popN [headerRow, sentinelRow] 1 = some [headerRow] ∧
    ([headerRow] : List Row) ≠ [headerRow, sentinelRow] ∧
    popN [headerRow, sentinelRow] 3 = none := by
  refine ⟨rfl, ?_, rfl⟩
  intro h
  simpa using congrArg List.length h

/-- C6 (amended).  On a store of `L` data rows (sentinel included)
plus the header, `truncate(n)` for `0 ≤ n ≤ L - 1` removes exactly the
last `n` rows and never touches the header or the sentinel; beyond that
bound over-truncation is unguarded (no UsageError): `n = L` and
`n = L + 1` silently eat the sentinel and then the header, and larger `n`
raises an uncaught IndexError. -/
theorem C6_truncate_bound (rows : List Row) (L n : Nat)
    (hlen : rows.length = L + 1) (hL : 1 ≤ L) (hn : n ≤ L - 1) :
    popN rows n = some (rows.take (rows.length - n)) ∧
    (rows.take (rows.length - n)).length = rows.length - n ∧
    (rows.take (rows.length - n)).get? 0 = rows.get? 0 ∧
    (rows.take (rows.length - n)).get? 1 = rows.get? 1 := by
  have hnl : n ≤ rows.length := by omega
  refine ⟨popN_of_le n rows hnl, ?_, ?_, ?_⟩
  · simp only [List.length_take]
    omega
  · exact take_get?_lt rows _ 0 (by omega)
  · exact take_get?_lt rows _ 1 (by omega)

/-- C6 (witness for the amended theorem). -/
theorem C6_truncate_bound_witness :
    popN [headerRow, sentinelRow, scenarioRow] 1 =
      some (([headerRow, sentinelRow, scenarioRow] : List Row).take
        (([headerRow, sentinelRow, scenarioRow] : List Row).length - 1)) ∧
    (([headerRow, sentinelRow, scenarioRow] : List Row).take
        (([headerRow, sentinelRow, scenarioRow] : List Row).length - 1)).get? 1 =
      ([headerRow, sentinelRow, scenarioRow] : List Row).get? 1 :=
  ⟨(C6_truncate_bound [headerRow, sentinelRow, scenarioRow] 2 1 rfl
      (by decide) (by decide)).1,
   (C6_truncate_bound [headerRow, sentinelRow, scenarioRow] 2 1 rfl
      (by decide) (by decide)).2.2.2⟩

/-!
## C8 — the §8 session scenario
-/

/-- C8 (counterexample).  The claim — the second row serializes as the
9-tuple `(1,1,0,"[0,0,10,10]","","","","","")` — fails on the code: the
committed entry is padded only to 8 columns (reservoir slots 3..7), and
no column-8 body cell is written when the body count is 0. -/
theorem C8_session_counterexample :
    (sessionRun sess8 ["1", "0"] roi8).file.get? 2 = some scenarioRow ∧
    scenarioRow.length = 8 ∧
    scenarioRow ≠ ["1", "1", "0", "[0,0,10,10]", "", "", "", "", ""] := by
  refine ⟨rfl, rfl, ?_⟩
  intro h
  have h9 : scenarioRow.length = 9 := by simpa using congrArg List.length h
  exact absurd h9 (by decide)

/-- C8 (amended).  Starting from header + sentinel with 4 chunks,
labelling chunk 1 in normal mode with one reservoir box `(0,0,10,10)` and
zero bodies leaves exactly 2 data rows; the new second data row has the
8 cells `(1,1,0,"[0,0,10,10]","","","","")` — reservoir slots padded as
fixed columns 3..7, body slots (which would begin at column 8) absent for
a zero body count — serializing to the line `1,1,0,[0,0,10,10],,,,`, and
the cursor then points at chunk 2. -/
theorem C8_session_scenario :
    sessionRun sess8 ["1", "0"] roi8 = { scen8 with linesSnap := sess8.linesSnap } ∧
    (sessionRun sess8 ["1", "0"] roi8).file.length - 1 = 2 ∧
    (sessionRun sess8 ["1", "0"] roi8).file.get? 2 = some scenarioRow ∧
    scenarioRow.get? 3 = some "[0,0,10,10]" ∧
    scenarioRow.length = 8 ∧
    serializeRow scenarioRow = "1,1,0,[0,0,10,10],,,," ∧
    (sessionRun sess8 ["1", "0"] roi8).i = 2 :=
  ⟨rfl, rfl, rfl, rfl, rfl, rfl, rfl⟩

/-!
## C4 — the correction-pass commit
-/

/-- C4.  In `CORRECTION` state at audited data-row index `a`
(cursor `i = a`), every committed correction replaces exactly the file
line `a + 1` — which is the row holding data row `a`, since the header
occupies line 0 — in place: the file keeps its length (nothing is
appended) and every other line including the header is unchanged.  When
further audit entries remain, the session stays in `CORRECTION` and the
cursor moves to the next audit-list entry; when the audit list is
thereby exhausted the session returns to `NORMAL` with the cursor reset
to `last_chunk + 1`. -/
theorem C4_correction_rewrite (st : Sess) (roi : Roi) (c bsv : String)
    (rest : List String) (n m : Int) (a : Nat)
    (hdc : st.dataCorrection = true) (hia : st.i = (a : Int))
    (hi : st.i < (st.total : Int))
    (hc : pyInt c = some n) (hn : n ≤ 5) (hbs : pyInt bsv = some m) :
    (st.invalidRows.length ≤ st.invalidIdx + 1 →
      sessionStep st (c :: bsv :: rest) roi =
        .next { st with
                file := st.linesSnap.set (a + 1) (entryCells st.i n m roi),
                linesSnap := st.linesSnap.set (a + 1) (entryCells st.i n m roi),
                i := st.lastChunk + 1, dataCorrection := false,
                invalidIdx := st.invalidIdx + 1 } rest) ∧
    (st.invalidIdx + 1 < st.invalidRows.length →
      sessionStep st (c :: bsv :: rest) roi =
        .next { st with
                file := st.linesSnap.set (a + 1) (entryCells st.i n m roi),
                linesSnap := st.linesSnap.set (a + 1) (entryCells st.i n m roi),
                i := (st.invalidRows.getD (st.invalidIdx + 1) 0 : Int),
                invalidIdx := st.invalidIdx + 1 } rest) ∧
    (st.linesSnap.set (a + 1) (entryCells st.i n m roi)).length =
      st.linesSnap.length ∧
    (a + 1 < st.linesSnap.length →
      (st.linesSnap.set (a + 1) (entryCells st.i n m roi)).get? (a + 1) =
        some (entryCells st.i n m roi)) ∧
    (∀ k, k ≠ a + 1 →
      (st.linesSnap.set (a + 1) (entryCells st.i n m roi)).get? k =
        st.linesSnap.get? k) := by
  have hcy : cycle st.dataCorrection st.i roi c (bsv :: rest) =
      .commit (entryCells st.i n m roi) rest :=
    cycle_commit st.dataCorrection st.i roi c bsv rest n m hc hn hbs
  have htn : (st.i + 1).toNat = a + 1 := by
    rw [hia]
    simp
  refine ⟨?_, ?_, by simp, ?_, ?_⟩
  · intro hlast
    have h := sessionStep_commit_corr_last st roi c (bsv :: rest) rest
      (entryCells st.i n m roi) hi hdc hcy hlast
    rw [htn] at h
    exact h
  · intro hmid
    have h := sessionStep_commit_corr_mid st roi c (bsv :: rest) rest
      (entryCells st.i n m roi) hi hdc hcy hmid
    rw [htn] at h
    exact h
  · intro hlt
    simp [List.get?_eq_getElem?, List.getElem?_set_self hlt]
  · intro k hk
    simp [List.get?_eq_getElem?, List.getElem?_set_ne (Ne.symm hk)]

/-- The correction-scenario oracle: one box for the repaired chunk. -/
def roiC4 : Roi := fun _ _ => ["[2,3,4,5]"]

/-- A correction-mode state: header, an intact chunk-0 row, and a
defective chunk-1 row declaring one reservoir without coordinates; the
audit list is `[1]` and the cursor sits on the audited data row 1. -/
def corrSt : Sess :=
  { file := [headerRow, ["0", "0", "0"], ["1", "1", "0"]],
    linesSnap := [headerRow, ["0", "0", "0"], ["1", "1", "0"]],
    i := 1, dataCorrection := true, invalidRows := [1], invalidIdx := 0,
    lastChunk := 1, total := 4 }

/-- A two-defect correction-mode state: the sentinel (chunk 0) and the
chunk-1 row both declare counts without coordinates; the audit list is
`[0, 1]` and the cursor sits on the first audited data row 0. -/
def corrSt2 : Sess :=
  { file := [headerRow, ["0", " 1", " 0"], ["1", "1", "0"]],
    linesSnap := [headerRow, ["0", " 1", " 0"], ["1", "1", "0"]],
    i := 0, dataCorrection := true, invalidRows := [0, 1], invalidIdx := 0,
    lastChunk := 1, total := 4 }

/-- C4 (witness): the exhausting commit on `corrSt` and a mid-list
commit on `corrSt2`, which repairs file line 1 and moves to the next
audited index while staying in correction mode. -/
theorem C4_correction_rewrite_witness :
    sessionStep corrSt ["1", "0"] roiC4 =
      .next { corrSt with
              file := corrSt.linesSnap.set 2 (entryCells corrSt.i 1 0 roiC4),
              linesSnap := corrSt.linesSnap.set 2 (entryCells corrSt.i 1 0 roiC4),
              i := corrSt.lastChunk + 1, dataCorrection := false,
              invalidIdx := corrSt.invalidIdx + 1 } [] ∧
    sessionStep corrSt2 ["1", "0"] roiC4 =
      .next { corrSt2 with
              file := corrSt2.linesSnap.set 1 (entryCells corrSt2.i 1 0 roiC4),
              linesSnap := corrSt2.linesSnap.set 1 (entryCells corrSt2.i 1 0 roiC4),
              i := (corrSt2.invalidRows.getD (corrSt2.invalidIdx + 1) 0 : Int),
              invalidIdx := corrSt2.invalidIdx + 1 } [] ∧
    (corrSt.linesSnap.set 2 (entryCells corrSt.i 1 0 roiC4)).length =
      corrSt.linesSnap.length ∧
    (corrSt.linesSnap.set 2 (entryCells corrSt.i 1 0 roiC4)).get? 0 =
      corrSt.linesSnap.get? 0 := by
  have h := C4_correction_rewrite corrSt roiC4 "1" "0" [] 1 0 1
    rfl rfl (by decide) rfl (by decide) rfl
  have h2 := C4_correction_rewrite corrSt2 roiC4 "1" "0" [] 1 0 0
    rfl rfl (by decide) rfl (by decide) rfl
  exact ⟨h.1 (by decide), h2.2.1 (by decide), h.2.2.1, h.2.2.2.2 0 (by decide)⟩

/-!
## C7 — the `break` token ends the session without touching the store
-/

/-- C7.  Once the operator enters a token containing `break` — at the
reservoir prompt or at the body prompt, in either mode — the step
transitions to the paused/terminal state and the whole remaining session
leaves the entire state, in particular the persisted store, untouched:
nothing is appended, rewritten or truncated for the current chunk, whose
partial work is discarded. -/
theorem C7_break_no_mutation (st : Sess) (roi : Roi) (f : Nat) :
    (∀ (s : String) (rest : List String),
      pyInt s = none → pyIn "break" s = true →
      (st.i < (st.total : Int) → sessionStep st (s :: rest) roi = .paused st) ∧
      sessionLoop f st (s :: rest) roi = st) ∧
    (∀ (c bs : String) (rest : List String) (n : Int),
      pyInt c = some n → n ≤ 5 → pyInt bs = none → pyIn "break" bs = true →
      (st.i < (st.total : Int) →
        sessionStep st (c :: bs :: rest) roi = .paused st) ∧
      sessionLoop f st (c :: bs :: rest) roi = st) := by
  constructor
  · intro s rest hs hb
    have hstep : st.i < (st.total : Int) →
        sessionStep st (s :: rest) roi = .paused st := fun hi =>
      sessionStep_paused st roi s rest rest hi
        (cycle_break_at_res st.dataCorrection st.i roi s rest hs hb)
    refine ⟨hstep, ?_⟩
    match f with
    | 0 => rfl
    | f + 1 =>
      by_cases hi : st.i < (st.total : Int)
      · rw [sessionLoop_of_paused f st st _ roi (hstep hi)]
      · rw [sessionLoop, sessionStep_done st _ roi hi]
  · intro c bs rest n hc hn hbs hb
    have hstep : st.i < (st.total : Int) →
        sessionStep st (c :: bs :: rest) roi = .paused st := fun hi =>
      sessionStep_paused st roi c (bs :: rest) rest hi
        (cycle_break_at_body st.dataCorrection st.i roi c bs rest n hc hn hbs hb)
    refine ⟨hstep, ?_⟩
    match f with
    | 0 => rfl
    | f + 1 =>
      by_cases hi : st.i < (st.total : Int)
      · rw [sessionLoop_of_paused f st st _ roi (hstep hi)]
      · rw [sessionLoop, sessionStep_done st _ roi hi]

/-- C7 (witness): `break` at the reservoir prompt and `break now` at
the body prompt both leave the §8 state untouched. -/
theorem C7_break_no_mutation_witness :
    sessionLoop 1 sess8 ["break"] roi8 = sess8 ∧
    sessionLoop 3 sess8 ["1", "break now", "9"] roi8 = sess8 :=
  ⟨((C7_break_no_mutation sess8 roi8 1).1 "break" [] rfl rfl).2,
   ((C7_break_no_mutation sess8 roi8 3).2 "1" "break now" ["9"] 1 rfl
      (by decide) rfl rfl).2⟩

/-!
## C3 — the completion audit
-/

theorem auditScan_some : ∀ (j : Nat) (rows : List Row),
    (∀ r ∈ rows, (rowFlags r).isSome) →
    ∃ a b, auditScan j rows = some (a, b) ∧
      (∀ k, k ∈ a ↔ ∃ t r fr fb, rows.get? t = some r ∧
          rowFlags r = some (fr, fb) ∧ fr = true ∧ k = j + t - 1) ∧
      (∀ k, k ∈ b ↔ ∃ t r fr fb, rows.get? t = some r ∧
          rowFlags r = some (fr, fb) ∧ fb = true ∧ k = j + t - 1) := by
  intro j rows
  induction rows generalizing j with
  | nil =>
    intro _
    refine ⟨[], [], rfl, ?_, ?_⟩ <;>
      · intro k
        simp
  | cons r rs ih =>
    intro H
    obtain ⟨fl, hfl⟩ := Option.isSome_iff_exists.mp (H r (by simp))
    obtain ⟨a, b, hscan, hma, hmb⟩ :=
      ih (j + 1) (fun r' hr' => H r' (by simp [hr']))
    refine ⟨(if fl.1 then [j - 1] else []) ++ a,
            (if fl.2 then [j - 1] else []) ++ b, ?_, ?_, ?_⟩
    · rw [auditScan, hfl, hscan]
    · intro k
      rw [List.mem_append]
      constructor
      · rintro (hk | hk)
        · by_cases h1 : fl.1 = true
          · rw [if_pos h1] at hk
            simp only [List.mem_singleton] at hk
            exact ⟨0, r, fl.1, fl.2, by simp, by simp [hfl], h1, by omega⟩
          · rw [if_neg h1] at hk
            simp at hk
        · obtain ⟨t, r', fr, fb, hget, hfl', hfr, hk'⟩ := (hma k).mp hk
          exact ⟨t + 1, r', fr, fb, by simpa using hget, hfl', hfr, by omega⟩
      · rintro ⟨t, r', fr, fb, hget, hfl', hfr, hk⟩
        match t with
        | 0 =>
          simp only [List.get?] at hget
          injection hget with hg
          subst hg
          rw [hfl] at hfl'
          injection hfl' with hp
          left
          subst hp
          rw [if_pos (by simpa using hfr)]
          simp only [List.mem_singleton]
          omega
        | t' + 1 =>
          right
          refine (hma k).mpr ⟨t', r', fr, fb, by simpa using hget, hfl', hfr, by omega⟩
    · intro k
      rw [List.mem_append]
      constructor
      · rintro (hk | hk)
        · by_cases h1 : fl.2 = true
          · rw [if_pos h1] at hk
            simp only [List.mem_singleton] at hk
            exact ⟨0, r, fl.1, fl.2, by simp, by simp [hfl], h1, by omega⟩
          · rw [if_neg h1] at hk
            simp at hk
        · obtain ⟨t, r', fr, fb, hget, hfl', hfb, hk'⟩ := (hmb k).mp hk
          exact ⟨t + 1, r', fr, fb, by simpa using hget, hfl', hfb, by omega⟩
      · rintro ⟨t, r', fr, fb, hget, hfl', hfb, hk⟩
        match t with
        | 0 =>
          simp only [List.get?] at hget
          injection hget with hg
          subst hg
          rw [hfl] at hfl'
          injection hfl' with hp
          left
          subst hp
          rw [if_pos (by simpa using hfb)]
          simp only [List.mem_singleton]
          omega
        | t' + 1 =>
          right
          refine (hmb k).mpr ⟨t', r', fr, fb, by simpa using hget, hfl', hfb, by omega⟩

/-- The two data rows of the spec's auditor example: `(5,2,0,box,box)` and
`(6,0,1,"")` (the second row missing its body box). -/
def auditExampleRows : List Row :=
  [["5", "2", "0", "[0,0,10,10]", "[1,1,2,2]"], ["6", "0", "1", ""]]

/-- C3.  Over any loaded file whose data rows declare parseable
non-negative counts, the completion audit returns exactly the ascending,
de-duplicated union of the two defect sets: the 0-based indices of the
data rows whose `reservoir_count > 0` but whose coordinate cell at the
count-dependent offset `2 + reservoir_count` is absent or does not parse
as a box, or symmetrically for `body_count` at offset `7 + body_count`;
and on the spec's example rows it returns `[1]`, not `[0]`.
(spec-modelled: the merge `misc.combine_sort_unique` is not among the
sources and is modelled from the spec as the ascending de-duplicated
union.) -/
theorem C3_audit_union :
    (∀ (hd : Row) (rows : List Row),
      (∀ r ∈ rows, ∃ p : Int × Int, countsOf r = some p ∧ 0 ≤ p.1 ∧ 0 ≤ p.2) →
      ∃ out, auditLines (hd :: rows) = some out ∧
        List.Sorted (· ≤ ·) out ∧ out.Nodup ∧
        (∀ k, k ∈ out ↔ ∃ r, rows.get? k = some r ∧ specNeedsRepair r)) ∧
    auditLines (headerRow :: auditExampleRows) = some [1] := by
  constructor
  · intro hd rows H
    have H' : ∀ r ∈ rows, (rowFlags r).isSome := by
      intro r hr
      obtain ⟨p, hp, _, _⟩ := H r hr
      simp [rowFlags, hp]
    obtain ⟨a, b, hscan, hma, hmb⟩ := auditScan_some 1 rows H'
    refine ⟨combine_sort_unique a b, ?_,
      combine_sort_unique_sorted a b, combine_sort_unique_nodup a b, ?_⟩
    · rw [auditLines]
      simp only [List.drop_succ_cons, List.drop_zero, hscan, Option.map_some']
    · intro k
      rw [combine_sort_unique_mem, hma k, hmb k]
      constructor
      · rintro (⟨t, r, fr, fb, hget, hfl', hfr, hk⟩ |
                ⟨t, r, fr, fb, hget, hfl', hfb, hk⟩)
        · have ht : k = t := by omega
          subst ht
          refine ⟨r, hget, ?_⟩
          obtain ⟨p, hp, h1, h2⟩ := H r (List.get?_mem hget)
          rw [rowFlags, hp] at hfl'
          simp only [Option.map_some'] at hfl'
          injection hfl' with hpair
          have hfr' : (decide (p.1 ≠ 0) && cellNotBox r (2 + p.1)) = true :=
            (congrArg Prod.fst hpair).trans hfr
          rw [Bool.and_eq_true] at hfr'
          left
          exact ⟨p, hp, by have := of_decide_eq_true hfr'.1; omega, hfr'.2⟩
        · have ht : k = t := by omega
          subst ht
          refine ⟨r, hget, ?_⟩
          obtain ⟨p, hp, h1, h2⟩ := H r (List.get?_mem hget)
          rw [rowFlags, hp] at hfl'
          simp only [Option.map_some'] at hfl'
          injection hfl' with hpair
          have hfb' : (decide (p.2 ≠ 0) && cellNotBox r (7 + p.2)) = true :=
            (congrArg Prod.snd hpair).trans hfb
          rw [Bool.and_eq_true] at hfb'
          right
          exact ⟨p, hp, by have := of_decide_eq_true hfb'.1; omega, hfb'.2⟩
      · rintro ⟨r, hget, hrep⟩
        rcases hrep with ⟨p', hp', hpos, hcnb⟩ | ⟨p', hp', hpos, hcnb⟩
        · left
          refine ⟨k, r, decide (p'.1 ≠ 0) && cellNotBox r (2 + p'.1),
            decide (p'.2 ≠ 0) && cellNotBox r (7 + p'.2), hget,
            by rw [rowFlags, hp']; rfl, ?_, by omega⟩
          rw [Bool.and_eq_true]
          exact ⟨decide_eq_true (by omega), hcnb⟩
        · right
          refine ⟨k, r, decide (p'.1 ≠ 0) && cellNotBox r (2 + p'.1),
            decide (p'.2 ≠ 0) && cellNotBox r (7 + p'.2), hget,
            by rw [rowFlags, hp']; rfl, ?_, by omega⟩
          rw [Bool.and_eq_true]
          exact ⟨decide_eq_true (by omega), hcnb⟩
  · rfl

/-- C3 (witness): the general audit theorem applied to the spec's
example rows. -/
theorem C3_audit_union_witness :
    ∃ out, auditLines (headerRow :: auditExampleRows) = some out ∧
      List.Sorted (· ≤ ·) out ∧ out.Nodup ∧
      (∀ k, k ∈ out ↔ ∃ r, auditExampleRows.get? k = some r ∧
        specNeedsRepair r) :=
  C3_audit_union.1 headerRow auditExampleRows (by
    intro r hr
    simp only [auditExampleRows, List.mem_cons, List.mem_singleton,
      List.not_mem_nil, or_false] at hr
    rcases hr with rfl | rfl
    · exact ⟨(2, 0), rfl, by decide, by decide⟩
    · exact ⟨(0, 1), rfl, by decide, by decide⟩)

/-!
## C1 / C10 — load-time contiguity validation
-/

/-- The pure pair walk over already-parsed chunk indices. -/
def chkInts : Nat → List Int → Except LoadErr Unit
  | _, [] => .ok ()
  | _, [_] => .ok ()
  | idx, a :: b :: rest =>
    if b - a ≠ 1 then .error (.corrupt (idx + 2) (a + 1))
    else chkInts (idx + 1) (b :: rest)

/-- Strict contiguity of a chunk-index sequence: every adjacent pair
differs by exactly +1 (no constraint on the first value). -/
def contiguous (cs : List Int) : Prop :=
  ∀ j, j + 1 < cs.length → cs.getD (j + 1) 0 = cs.getD j 0 + 1

instance contiguousDec (cs : List Int) : Decidable (contiguous cs) :=
  decidable_of_iff (∀ j < cs.length - 1, cs.getD (j + 1) 0 = cs.getD j 0 + 1)
    (by
      constructor
      · intro h j hj
        exact h j (by omega)
      · intro h j hj
        exact h j (by omega))

theorem contiguous_cons (a b : Int) (t : List Int) :
    contiguous (a :: b :: t) ↔ b = a + 1 ∧ contiguous (b :: t) := by
  constructor
  · intro h
    refine ⟨by simpa using h 0 (by simp), ?_⟩
    intro j hj
    have := h (j + 1) (by simp only [List.length_cons] at hj ⊢; omega)
    simpa using this
  · rintro ⟨h1, h2⟩ j hj
    match j with
    | 0 => simpa using h1
    | j + 1 =>
      have := h2 j (by simp only [List.length_cons] at hj ⊢; omega)
      simpa using this

theorem chkInts_ok_iff : ∀ (idx : Nat) (cs : List Int),
    chkInts idx cs = .ok () ↔ contiguous cs := by
  intro idx cs
  induction cs generalizing idx with
  | nil => simp [chkInts, contiguous]
  | cons a t ih =>
    match t with
    | [] =>
      constructor
      · intro _ j hj
        simp only [List.length_cons, List.length_nil] at hj
        omega
      · intro _
        rfl
    | b :: t' =>
      rw [contiguous_cons]
      by_cases hba : b - a ≠ 1
      · rw [chkInts, if_pos hba]
        constructor
        · intro h
          exact absurd h (by simp)
        · rintro ⟨h1, _⟩
          omega
      · rw [chkInts, if_neg hba, ih (idx + 1)]
        constructor
        · intro h
          exact ⟨by omega, h⟩
        · rintro ⟨_, h⟩
          exact h

theorem chkInts_err : ∀ (k : Nat) (idx : Nat) (cs : List Int),
    k + 1 < cs.length →
    (∀ j, j < k → cs.getD (j + 1) 0 = cs.getD j 0 + 1) →
    cs.getD (k + 1) 0 ≠ cs.getD k 0 + 1 →
    chkInts idx cs = .error (.corrupt (idx + k + 2) (cs.getD k 0 + 1)) := by
  intro k
  induction k with
  | zero =>
    intro idx cs hk _ hbrk
    match cs with
    | a :: b :: t =>
      simp only [List.getD_cons_succ, List.getD_cons_zero] at hbrk
      rw [chkInts, if_pos (by omega)]
      simp
  | succ k' ih =>
    intro idx cs hk hpre hbrk
    match cs with
    | a :: b :: t =>
      have h0 : b = a + 1 := by
        have := hpre 0 (by omega)
        simpa using this
      rw [chkInts, if_neg (by omega)]
      have hrec := ih (idx + 1) (b :: t)
        (by simp only [List.length_cons] at hk ⊢; omega)
        (by
          intro j hj
          have := hpre (j + 1) (by omega)
          simpa using this)
        (by simpa using hbrk)
      rw [hrec]
      have harith : idx + 1 + k' + 2 = idx + (k' + 1) + 2 := by omega
      rw [harith]
      have hshift : (b :: t).getD k' 0 = (a :: b :: t).getD (k' + 1) 0 := by
        simp
      rw [hshift]

theorem checkPairs_eq_chkInts : ∀ (idx : Nat) (ds : List Row) (cs : List Int),
    ds.map (fun r => pyInt (firstCell r)) = cs.map some →
    checkPairs idx ds = chkInts idx cs := by
  intro idx ds
  induction ds generalizing idx with
  | nil =>
    intro cs h
    have : cs = [] := by
      cases cs with
      | nil => rfl
      | cons c cs' => simp at h
    subst this
    rfl
  | cons d ds' ih =>
    intro cs h
    match cs with
    | [] => simp at h
    | c :: cs' =>
      simp only [List.map_cons, List.cons.injEq] at h
      obtain ⟨hd1, hrest⟩ := h
      match ds', cs' with
      | [], [] => simp [checkPairs, chkInts]
      | [], _ :: _ => simp at hrest
      | _ :: _, [] => simp at hrest
      | d2 :: ds'', c2 :: cs'' =>
        have hd2 : pyInt (firstCell d2) = some c2 := by
          simp only [List.map_cons, List.cons.injEq] at hrest
          exact hrest.1
        simp only [checkPairs, chkInts, hd1, hd2]
        by_cases hc : c2 - c ≠ 1
        · rw [if_pos hc, if_pos hc]
        · rw [if_neg hc, if_neg hc]
          exact ih (idx + 1) (c2 :: cs'') hrest

theorem map_parse_getLast : ∀ (ds : List Row) (cs : List Int),
    ds.map (fun r => pyInt (firstCell r)) = cs.map some → ds ≠ [] →
    ∃ r c, ds.getLast? = some r ∧ cs.getLast? = some c ∧
      pyInt (firstCell r) = some c := by
  intro ds
  induction ds with
  | nil => intro cs _ hne; exact absurd rfl hne
  | cons d ds' ih =>
    intro cs h _
    match cs with
    | [] => simp at h
    | c :: cs' =>
      simp only [List.map_cons, List.cons.injEq] at h
      obtain ⟨hd1, hrest⟩ := h
      match ds', cs' with
      | [], [] => exact ⟨d, c, rfl, rfl, hd1⟩
      | [], _ :: _ => simp at hrest
      | _ :: _, [] => simp at hrest
      | d2 :: ds'', c2 :: cs'' =>
        obtain ⟨r, cc, h1, h2, h3⟩ := ih (c2 :: cs'') hrest (by simp)
        exact ⟨r, cc, by rw [List.getLast?_cons_cons]; exact h1,
          by rw [List.getLast?_cons_cons]; exact h2, h3⟩

theorem validate_eq (lines : List Row) :
    validate lines =
      match checkPairs 1 (lines.drop 1) with
      | .error e => .error e
      | .ok _ =>
        match lines.getLast? with
        | none => .error .parse
        | some l =>
          match pyInt (firstCell l) with
          | none => .error .parse
          | some c => .ok c := by
  rw [validate]
  cases hcp : checkPairs 1 (lines.drop 1) with
  | error e => rfl
  | ok u => cases u; rfl

theorem getLast?_cons_ne {α : Type} (x : α) (l : List α) (h : l ≠ []) :
    (x :: l).getLast? = l.getLast? := by
  match l with
  | [] => exact absurd rfl h
  | y :: t => exact List.getLast?_cons_cons

/-- The data rows of the spec's contiguity example, chunk indices
`0,1,2,4`. -/
def ds0124 : List Row :=
  [["0", " 1", " 0"], ["1", "0", "0"], ["2", "0", "0"], ["4", "0", "0"]]

/-- The spec's contiguity example file. -/
def file0124 : List Row := headerRow :: ds0124

/-- C1.  For a loaded file whose data rows bear parseable chunk
indices, loading fails with a `CorruptionError` exactly when some data
row's chunk index is not its predecessor's plus 1; the error reports the
offending row — by its 1-based file line `k + 3`, the line holding the
second row of the first broken pair — together with the expected chunk
index; in particular the `0,1,2,4` file fails reporting line 5 (the
file's 5th line, the row bearing chunk 4, i.e. the 4th data row) with
expected chunk 3. -/
theorem C1_load_contiguity :
    (∀ (hd : Row) (ds : List Row) (cs : List Int),
      ds.map (fun r => pyInt (firstCell r)) = cs.map some → ds ≠ [] →
      ((∃ lineNo e, validate (hd :: ds) = .error (.corrupt lineNo e)) ↔
        ¬ contiguous cs) ∧
      (∀ k, k + 1 < cs.length →
        (∀ j, j < k → cs.getD (j + 1) 0 = cs.getD j 0 + 1) →
        cs.getD (k + 1) 0 ≠ cs.getD k 0 + 1 →
        validate (hd :: ds) = .error (.corrupt (k + 3) (cs.getD k 0 + 1)))) ∧
    validate file0124 = .error (.corrupt 5 3) ∧
    file0124.get? 4 = some ["4", "0", "0"] := by
  refine ⟨?_, rfl, rfl⟩
  intro hd ds cs hmap hne
  have hcp : checkPairs 1 ds = chkInts 1 cs := checkPairs_eq_chkInts 1 ds cs hmap
  obtain ⟨r, c, hlr, hlc, hpc⟩ := map_parse_getLast ds cs hmap hne
  have hlast : (hd :: ds).getLast? = some r := by
    rw [getLast?_cons_ne hd ds hne]
    exact hlr
  have hdrop : (hd :: ds).drop 1 = ds := rfl
  have herr : ∀ k, k + 1 < cs.length →
      (∀ j, j < k → cs.getD (j + 1) 0 = cs.getD j 0 + 1) →
      cs.getD (k + 1) 0 ≠ cs.getD k 0 + 1 →
      validate (hd :: ds) = .error (.corrupt (k + 3) (cs.getD k 0 + 1)) := by
    intro k hk hpre hbrk
    rw [validate_eq, hdrop, hcp, chkInts_err k 1 cs hk hpre hbrk]
    have h123 : 1 + k + 2 = k + 3 := by omega
    rw [h123]
  refine ⟨⟨?_, ?_⟩, herr⟩
  · rintro ⟨lineNo, e, hv⟩ hcont
    have hok : chkInts 1 cs = .ok () := (chkInts_ok_iff 1 cs).mpr hcont
    rw [validate_eq, hdrop, hcp, hok, hlast] at hv
    simp [hpc] at hv
  · intro hncont
    have hex : ∃ k, k + 1 < cs.length ∧ cs.getD (k + 1) 0 ≠ cs.getD k 0 + 1 := by
      by_contra hno
      push_neg at hno
      exact hncont fun j hj => hno j hj
    have hspec := Nat.find_spec hex
    have hpre : ∀ j, j < Nat.find hex →
        cs.getD (j + 1) 0 = cs.getD j 0 + 1 := by
      intro j hj
      have hmin := Nat.find_min hex hj
      push_neg at hmin
      exact hmin (by have := hspec.1; omega)
    exact ⟨Nat.find hex + 3, cs.getD (Nat.find hex) 0 + 1,
      herr (Nat.find hex) hspec.1 hpre hspec.2⟩

/-- C1. (witness): the general reporting theorem applied to the
`0,1,2,4` file at the first break `k = 2`. -/
theorem C1_load_contiguity_witness :
    validate (headerRow :: ds0124) = .error (.corrupt 5 3) :=
  (C1_load_contiguity.1 headerRow ds0124 [0, 1, 2, 4] rfl (by simp [ds0124])).2 2
    (by decide) (by decide) (by decide)

/-- C10.  The validity check compares only consecutive data-row
pairs: any file whose adjacent data rows bear chunk indices differing by
exactly +1 is accepted and the resume value is the last row's chunk
index, whatever the first data row's chunk index is; the header line is
never parsed as a row (replacing it changes nothing when at least one
data row exists); and a file holding the header but no data rows is
rejected as invalid, because the pair walk is vacuous and the resume
cursor is computed from the last line — here the header, whose first
field does not parse. -/
theorem C10_validity_pairs :
    (∀ (h h' : Row) (ds : List Row), ds ≠ [] →
      validate (h :: ds) = validate (h' :: ds)) ∧
    (∀ (hd : Row) (ds : List Row) (cs : List Int),
      ds.map (fun r => pyInt (firstCell r)) = cs.map some → ds ≠ [] →
      contiguous cs →
      ∃ c, cs.getLast? = some c ∧ validate (hd :: ds) = .ok c) ∧
    (∀ hd : Row, pyInt (firstCell hd) = none →
      checkPairs 1 (([hd] : List Row).drop 1) = .ok () ∧
      validate [hd] = .error .parse) ∧
    validate [headerRow] = .error .parse := by
  refine ⟨?_, ?_, ?_, rfl⟩
  · intro h h' ds hne
    rw [validate_eq, validate_eq, show (h :: ds).drop 1 = ds from rfl,
      show (h' :: ds).drop 1 = ds from rfl,
      getLast?_cons_ne h ds hne, getLast?_cons_ne h' ds hne]
  · intro hd ds cs hmap hne hcont
    obtain ⟨r, c, hlr, hlc, hpc⟩ := map_parse_getLast ds cs hmap hne
    refine ⟨c, hlc, ?_⟩
    rw [validate_eq, show (hd :: ds).drop 1 = ds from rfl,
      checkPairs_eq_chkInts 1 ds cs hmap, (chkInts_ok_iff 1 cs).mpr hcont,
      getLast?_cons_ne hd ds hne, hlr]
    simp [hpc]
  · intro hd hp
    refine ⟨rfl, ?_⟩
    rw [validate_eq, show ([hd] : List Row).drop 1 = [] from rfl]
    simp [checkPairs, hp]

/-- C10 (witness): a contiguous file starting at chunk 7 is accepted
whatever its header says, and the header-only file is rejected. -/
theorem C10_validity_pairs_witness :
    validate (headerRow :: [["7", "1", "0"], ["8", "0", "0"]]) =
      validate (["junk"] :: [["7", "1", "0"], ["8", "0", "0"]]) ∧
    (∃ c, ([7, 8] : List Int).getLast? = some c ∧
      validate (headerRow :: [["7", "1", "0"], ["8", "0", "0"]]) = .ok c) ∧
    validate [headerRow] = .error .parse :=
  ⟨C10_validity_pairs.1 headerRow ["junk"] [["7", "1", "0"], ["8", "0", "0"]]
      (by simp),
   C10_validity_pairs.2.1 headerRow [["7", "1", "0"], ["8", "0", "0"]] [7, 8]
      rfl (by simp) (by decide),
   (C10_validity_pairs.2.2.1 headerRow rfl).2⟩
